import Mathlib

/-!
A shallow Lean embedding of the Javanese-chess game engine
(`internal/game`), its heuristic evaluator (`internal/game/heuristic.go`
together with `internal/config`), and the room turn controller
(`internal/room`, including the manager variant with card-in-hand checks
and deck drawing, and the endgame check based on adjacent card values).

Conventions of the embedding:
* A Go board `b.Cells[j][i]` is `b.cells j i` (row index first), with
  `cells : Int → Int → Cell` a total function; Go code only ever indexes
  inside the bounds-checked region, so the values outside `[0, size)²`
  are never observed by the embedded functions under the bound
  hypotheses of the theorems below.
* Go `while` loops that walk along a board direction terminate after at
  most `size` steps (one coordinate moves by ±1 each step and must stay
  inside `[0, size)`), so they are embedded as fuel recursion with fuel
  `b.size` (or the explicit iteration cap of the source loop).
* Go machine integers are modelled as `Int` (the values involved are
  card values 1–9, scores and small sums; no overflow is reachable).
-/

namespace JChess

/-- Cell accessibility state, from `internal/game/types.go`
(`CellAccessible = 0`, `CellBlocked = 1`, `CellReplaceable = 2`). -/
inductive CellVState where
  | accessible
  | blocked
  | replaceable
deriving DecidableEq, Repr

/-- A board cell: `Value`, `VState`, `OwnerID` (`""` = unowned),
from `internal/game/types.go`. -/
structure Cell where
  value : Int
  vState : CellVState
  ownerID : String
deriving DecidableEq, Repr

/-- The cell a fresh board is filled with (`Value: 0`, `VState:
CellAccessible`, empty owner). -/
def emptyCell : Cell := { value := 0, vState := CellVState.accessible, ownerID := "" }

/-- The board: a size and the cell grid. `cells j i` stands for the Go
`b.Cells[j][i]`. -/
structure Board where
  size : Nat
  cells : Int → Int → Cell

/-- `NewBoard` from `internal/game/types.go`: non-positive sizes fall
back to 9 and every cell starts empty and accessible. -/
def newBoard (size : Int) : Board :=
  { size := if size ≤ 0 then 9 else size.toNat
    cells := fun _ _ => emptyCell }

/-- Modelled from the spec: the `game` package's bounds helper
`in(i, j, size)` is used throughout `wincheck.go`, `analysis.go` and
`heuristic.go` but its body is not among the provided sources.  Per the
spec ("Neighbor test uses the 8-connected Moore neighborhood,
bounds-checked") and the identical helper `inBounds(r, c)` of the
`game9x9` variant in this repository, it is the plain range check. -/
def inB (i j : Int) (n : Nat) : Prop :=
  0 ≤ i ∧ i < (n : Int) ∧ 0 ≤ j ∧ j < (n : Int)

instance (i j : Int) (n : Nat) : Decidable (inB i j n) := by
  unfold inB; infer_instance

/-- The four scan directions `{1,0},{0,1},{1,1},{1,-1}` used by
`IsWinningAfter`, `TieBreakerLineSum` and the heuristic helpers. -/
def dirs : List (Int × Int) := [(1, 0), (0, 1), (1, 1), (1, -1)]

/-- Length of the run of consecutive cells owned by `owner`, starting at
`(i, j)` and stepping by `(di, dj)`; fuel recursion for the Go loop
`for in(i, j, b.Size) && b.Cells[j][i].OwnerID == owner`. -/
def runLen (b : Board) (i j di dj : Int) (owner : String) : Nat → Nat
  | 0 => 0
  | fuel + 1 =>
    if inB i j b.size ∧ (b.cells j i).ownerID = owner then
      runLen b (i + di) (j + dj) di dj owner fuel + 1
    else 0

/-- `IsWinningAfter` from `internal/game/wincheck.go`: in some direction
the count `1 + forward run + backward run` of cells owned by `owner`
through `(x, y)` reaches 4.  (`card` is unused, exactly as in the Go
source.) -/
def isWinningAfter (b : Board) (x y : Int) (owner : String) (card : Int) : Bool :=
  dirs.any fun d =>
    decide (4 ≤ 1 + runLen b (x + d.1) (y + d.2) d.1 d.2 owner b.size
              + runLen b (x - d.1) (y - d.2) (-d.1) (-d.2) owner b.size)

/-- `CheckWin` from `internal/game/heuristic.go`: scan every cell owned
by `playerID` and count forward in each direction (the Go loop stops as
soon as the count reaches 4, so reaching 4 is equivalent to
`1 + runLen ≥ 4`). -/
def checkWin (b : Board) (playerID : String) : Bool :=
  (List.range b.size).any fun y =>
    (List.range b.size).any fun x =>
      decide ((b.cells y x).ownerID = playerID) &&
      dirs.any fun d =>
        decide (4 ≤ 1 + runLen b ((x : Int) + d.1) ((y : Int) + d.2) d.1 d.2 playerID b.size)

/-- The 8 Moore-neighborhood offsets `(p, q)` in the iteration order of
the Go nested loops (`q` outer from -1 to 1, `p` inner, skipping
`(0,0)`). -/
def neighborOffsets : List (Int × Int) :=
  [(-1, -1), (0, -1), (1, -1), (-1, 0), (1, 0), (-1, 1), (0, 1), (1, 1)]

/-- `hasFilledNeighbor` from `internal/game/engine.go`: some in-bounds
Moore neighbor has a non-zero value. -/
def hasFilledNeighbor (b : Board) (x y : Int) : Bool :=
  neighborOffsets.any fun d =>
    decide (inB (x + d.1) (y + d.2) b.size) &&
    decide ((b.cells (y + d.2) (x + d.1)).value ≠ 0)

/-- The classification a single cell receives in `UpdateVState`
(`internal/game/engine.go`), in the exact rule order of the source:
card 9 → accessible; otherwise filled → replaceable; otherwise a filled
neighbor → blocked; otherwise accessible. -/
def classifyVState (b : Board) (x y : Int) : CellVState :=
  if (b.cells y x).value = 9 then CellVState.accessible
  else if (b.cells y x).value ≠ 0 then CellVState.replaceable
  else if hasFilledNeighbor b x y then CellVState.blocked
  else CellVState.accessible

/-- `UpdateVState` from `internal/game/engine.go`.  The Go loop mutates
in place, but it writes only `VState` fields while `classify`/
`hasFilledNeighbor` read only `Value` fields, so the in-place loop is
exactly this pointwise update of the in-range cells. -/
def updateVState (b : Board) : Board :=
  { b with cells := fun j i =>
      if inB i j b.size then { b.cells j i with vState := classifyVState b i j }
      else b.cells j i }

/-- `UpdateLocalVState` from `internal/game/engine.go`: empty in-bounds
cells of the 3×3 block around `(x, y)` become blocked, then the placed
cell itself is set to accessible (card 9) or replaceable.  As above the
loop writes only `VState` and reads only `Value`, so the pointwise form
is exact (the final write to the placed cell overrides the block pass). -/
def updateLocalVState (b : Board) (x y : Int) : Board :=
  { b with cells := fun j i =>
      if j = y ∧ i = x then
        { b.cells j i with vState :=
            if (b.cells j i).value = 9 then CellVState.accessible
            else CellVState.replaceable }
      else if (i - x).natAbs ≤ 1 ∧ (j - y).natAbs ≤ 1 ∧ inB i j b.size ∧
              (b.cells j i).value = 0 then
        { b.cells j i with vState := CellVState.blocked }
      else b.cells j i }

/-- Write `OwnerID` and `Value` of the cell at `(x, y)` (the two
assignments at the top of `game.ApplyMove`). -/
def setCellOwnerValue (b : Board) (x y : Int) (owner : String) (card : Int) : Board :=
  { b with cells := fun j i =>
      if j = y ∧ i = x then { b.cells j i with ownerID := owner, value := card }
      else b.cells j i }

/-- `game.ApplyMove` from `internal/game/engine.go`: write the cell,
then update the local virtual states. -/
def applyMove (b : Board) (x y : Int) (owner : String) (card : Int) : Board :=
  updateLocalVState (setCellOwnerValue b x y owner card) x y

/-- A move, from `internal/game/types.go`. -/
structure Move where
  x : Int
  y : Int
  card : Int
  playerID : String
deriving DecidableEq, Repr

/-- The board-empty scan at the top of `GenerateLegalMoves`
(`internal/game/analysis.go`, the first-move-to-center variant): the
loop with the early `break` is the `all`-quantifier over the grid. -/
def boardEmptyCheck (b : Board) : Bool :=
  (List.range b.size).all fun y =>
    (List.range b.size).all fun x => decide ((b.cells y x).value = 0)

/-- The moves generated for one candidate cell in the regular (non-first
move) branch of `GenerateLegalMoves`: skip empty isolated cells
(`VState == CellAccessible && Value == 0`) and permanent nines; on an
empty cell every hand card is legal; on a filled cell the card must be
strictly greater and the cell must not already belong to the player. -/
def movesForCell (cell : Cell) (x y : Int) (hand : List Int) (playerID : String) : List Move :=
  if cell.vState = CellVState.accessible ∧ cell.value = 0 then []
  else if cell.value = 9 then []
  else hand.filterMap fun card =>
    if cell.value = 0 then some { x := x, y := y, card := card, playerID := playerID }
    else if card ≤ cell.value then none
    else if cell.ownerID = playerID then none
    else some { x := x, y := y, card := card, playerID := playerID }

/-- `GenerateLegalMoves` from `internal/game/analysis.go` (the variant
with the forced-center first move, the one called by the manager
`ApplyMove` and `CheckEndgame`): on an empty board one move per hand
card at the center `(Size/2, Size/2)`; otherwise the per-cell rule of
`movesForCell` over the whole grid (append order `y` outer, `x` inner,
hand order innermost, exactly as the Go loops). -/
def generateLegalMoves (b : Board) (hand : List Int) (playerID : String) : List Move :=
  if boardEmptyCheck b then
    hand.map fun card =>
      { x := ((b.size / 2 : Nat) : Int), y := ((b.size / 2 : Nat) : Int)
        card := card, playerID := playerID }
  else
    (List.range b.size).flatMap fun y =>
      (List.range b.size).flatMap fun x =>
        movesForCell (b.cells y x) x y hand playerID

/-- Sum of values along a run of consecutive cells owned by `playerID`
(the inner loop of `TieBreakerLineSum`); fuel recursion as for `runLen`. -/
def sumRun (b : Board) (i j di dj : Int) (playerID : String) : Nat → Int
  | 0 => 0
  | fuel + 1 =>
    if inB i j b.size ∧ (b.cells j i).ownerID = playerID then
      (b.cells j i).value + sumRun b (i + di) (j + dj) di dj playerID fuel
    else 0

/-- `TieBreakerLineSum` from `internal/game/analysis.go`: the maximum,
over owned cells and the 4 directions, of the value sum of the run
starting there (0 if the player owns nothing). -/
def tieBreakerLineSum (b : Board) (playerID : String) : Int :=
  (List.range b.size).foldl (fun acc y =>
    (List.range b.size).foldl (fun acc x =>
      if (b.cells y x).ownerID = playerID then
        dirs.foldl (fun acc d =>
          max acc ((b.cells y x).value +
            sumRun b ((x : Int) + d.1) ((y : Int) + d.2) d.1 d.2 playerID b.size)) acc
      else acc) acc) 0

/-- `TotalOwnedSum` from `internal/game/analysis.go`. -/
def totalOwnedSum (b : Board) (playerID : String) : Int :=
  (List.range b.size).foldl (fun acc y =>
    (List.range b.size).foldl (fun acc x =>
      if (b.cells y x).ownerID = playerID then acc + (b.cells y x).value else acc) acc) 0

/-! ## Heuristic evaluator (`internal/game/heuristic.go`, `EvaluateMove`
family) and its configuration (`internal/config/config.go`, the variant
with the per-card replace-value tables). -/

/-- `HeuristicWeights` from `internal/config/config.go`.  The Go
`map[int]int` tables are total functions (a missing key reads as 0,
matching Go map lookup). -/
structure HeuristicWeights where
  wWin : Int
  wThreat : Int
  wReplaceValue : Int
  wBlockPath : Int
  wBuildAlignment : Int
  wCardCost : Int
  legalMove : Int
  replaceValuesThreat : Int → Int
  replaceValuesPotential : Int → Int
  replaceWhenThreat : Int
  replacePotential : Int
  replacePosMiddle : Int
  replacePosSide : Int
  blockWhenThreat : Int
  blockPotential : Int
  buildAlignment2 : Int
  buildAlignment3 : Int
  playSmallestCard : Int
  keepNearCard : Int

/-- `Config` (the fields read by the game/heuristic code). -/
structure Config where
  boardSize : Nat
  defaultWeights : HeuristicWeights

/-- The configuration built by `config.Load()`: the default weights of
the research paper, including the two per-card tables. -/
def defaultConfig : Config :=
  { boardSize := 9
    defaultWeights :=
      { wWin := 10000
        wThreat := 200
        wReplaceValue := 125
        wBlockPath := 70
        wBuildAlignment := 50
        wCardCost := 1
        legalMove := 30
        replaceValuesThreat := fun c =>
          if c = 1 then 20 else if c = 2 then 30 else if c = 3 then 40
          else if c = 4 then 50 else if c = 5 then 60 else if c = 6 then 70
          else if c = 7 then 80 else if c = 8 then 90 else if c = 9 then 100
          else 0
        replaceValuesPotential := fun c =>
          if c = 1 then 100 else if c = 2 then 90 else if c = 3 then 80
          else if c = 4 then 70 else if c = 5 then 60 else if c = 6 then 50
          else if c = 7 then 40 else if c = 8 then 30 else if c = 9 then 20
          else 0
        replaceWhenThreat := 200
        replacePotential := 125
        replacePosMiddle := 75
        replacePosSide := 50
        blockWhenThreat := 100
        blockPotential := 70
        buildAlignment2 := 50
        buildAlignment3 := 100
        playSmallestCard := 60
        keepNearCard := 60 } }

/-- `getOpponentIDs`: the distinct non-empty owners other than
`playerID`, in first-occurrence scan order. -/
def getOpponentIDs (b : Board) (playerID : String) : List String :=
  (List.range b.size).foldl (fun acc y =>
    (List.range b.size).foldl (fun acc x =>
      let o := (b.cells y x).ownerID
      if o ≠ "" ∧ o ≠ playerID ∧ o ∉ acc then acc ++ [o] else acc) acc) []

/-- `countAdjacentOpponentCards`: opponent-owned cells among the 8
in-bounds Moore neighbors. -/
def countAdjacentOpponentCards (b : Board) (x y : Int) (playerID : String) : Nat :=
  neighborOffsets.countP fun d =>
    decide (inB (x + d.1) (y + d.2) b.size) &&
    decide ((b.cells (y + d.2) (x + d.1)).ownerID ≠ "") &&
    decide ((b.cells (y + d.2) (x + d.1)).ownerID ≠ playerID)

/-- Run length of consecutive cells owned by *some opponent* (non-empty
owner different from `playerID`), the loop body of
`countLineOpponentCards`. -/
def runLenOpp (b : Board) (i j di dj : Int) (playerID : String) : Nat → Nat
  | 0 => 0
  | fuel + 1 =>
    if inB i j b.size ∧ (b.cells j i).ownerID ≠ "" ∧ (b.cells j i).ownerID ≠ playerID then
      runLenOpp b (i + di) (j + dj) di dj playerID fuel + 1
    else 0

/-- `countLineOpponentCards`: forward plus backward opponent run from
`(x, y)` (the cell itself is not counted). -/
def countLineOpponentCards (b : Board) (x y : Int) (d : Int × Int) (playerID : String) : Nat :=
  runLenOpp b (x + d.1) (y + d.2) d.1 d.2 playerID b.size +
  runLenOpp b (x - d.1) (y - d.2) (-d.1) (-d.2) playerID b.size

/-- `countLineOwnCards`: 1 (the position itself, counted unconditionally
by the Go source) plus both runs of the player's own cells. -/
def countLineOwnCards (b : Board) (x y : Int) (d : Int × Int) (playerID : String) : Nat :=
  1 + runLen b (x + d.1) (y + d.2) d.1 d.2 playerID b.size +
  runLen b (x - d.1) (y - d.2) (-d.1) (-d.2) playerID b.size

/-- `hasThreeInRowThreat`: in some direction the opponent's run through
`(x, y)` (each side capped at 3 steps by the source loop) reaches 3. -/
def hasThreeInRowThreat (b : Board) (x y : Int) (opponentID : String) : Bool :=
  dirs.any fun d =>
    decide (3 ≤ 1 + runLen b (x + d.1) (y + d.2) d.1 d.2 opponentID 3
              + runLen b (x - d.1) (y - d.2) (-d.1) (-d.2) opponentID 3)

/-- `f_win` from `internal/game/heuristic.go`, in state-passing form:
it temporarily writes `playerID` into the cell's owner, runs `CheckWin`,
then writes the original owner back; the returned board is the board the
Go function leaves behind. -/
def setOwnerOnly (b : Board) (x y : Int) (owner : String) : Board :=
  { b with cells := fun j i =>
      if j = y ∧ i = x then { b.cells j i with ownerID := owner }
      else b.cells j i }

/-- See `setOwnerOnly`; this is `f_win` itself. -/
def fWinSt (b : Board) (x y : Int) (playerID : String) : Int × Board :=
  let originalOwner := (b.cells y x).ownerID
  let b1 := setOwnerOnly b x y playerID
  let hasWin := checkWin b1 playerID
  let b2 := setOwnerOnly b1 x y originalOwner
  (if hasWin then 1 else 0, b2)

/-- `f_threat`: 1 if some opponent has a three-in-row threat at the
position. -/
def fThreat (b : Board) (x y : Int) (playerID : String) : Int :=
  if (getOpponentIDs b playerID).any (fun o => hasThreeInRowThreat b x y o) then 1 else 0

/-- `f_replace`: only scores when overwriting an opponent cell during a
threat; base `ReplaceWhenThreat` plus a positional bonus from the count
of adjacent opponent cards. -/
def fReplace (b : Board) (x y : Int) (playerID : String) (isThreat : Bool)
    (cfg : Config) : Int :=
  let cell := b.cells y x
  if ¬ isThreat ∨ cell.ownerID = "" ∨ cell.ownerID = playerID then 0
  else
    let score := cfg.defaultWeights.replaceWhenThreat
    let adjacentOpponentCount := countAdjacentOpponentCards b x y playerID
    if 3 ≤ adjacentOpponentCount then score + cfg.defaultWeights.replacePosMiddle
    else if 1 ≤ adjacentOpponentCount then score + cfg.defaultWeights.replacePosSide
    else score

/-- `f_blocks`: per direction, add `BlockWhenThreat` for an opponent
line of length ≥ 3 and `BlockPotential` for length ≥ 2. -/
def fBlocks (b : Board) (x y : Int) (playerID : String) (cfg : Config) : Int :=
  dirs.foldl (fun score d =>
    let count := countLineOpponentCards b x y d playerID
    if 3 ≤ count then score + cfg.defaultWeights.blockWhenThreat
    else if 2 ≤ count then score + cfg.defaultWeights.blockPotential
    else score) 0

/-- `f_formation`: reward from the maximal own alignment through the
position. -/
def fFormation (b : Board) (x y : Int) (playerID : String) (cfg : Config) : Int :=
  let maxAlignment := dirs.foldl (fun m d => max m (countLineOwnCards b x y d playerID)) 0
  if 3 ≤ maxAlignment then cfg.defaultWeights.buildAlignment3
  else if 2 ≤ maxAlignment then cfg.defaultWeights.buildAlignment2
  else 0

/-- `f_value`: per-card table, threat-response table when overwriting
during a threat, conservation table otherwise. -/
def fValue (card : Int) (isOverwritingDuringThreat : Bool) (cfg : Config) : Int :=
  if isOverwritingDuringThreat then cfg.defaultWeights.replaceValuesThreat card
  else cfg.defaultWeights.replaceValuesPotential card

/-- `EvaluateMove` from `internal/game/heuristic.go`, in state-passing
form: `f_win` runs first on the live board (temporary write + rollback),
all later factors read the board `f_win` left behind, and the final
board is returned alongside the score. -/
def evaluateMoveSt (b : Board) (x y card : Int) (playerID : String) (cfg : Config) :
    Int × Board :=
  let w := fWinSt b x y playerID
  let b1 := w.2
  let winScore := if w.1 = 1 then cfg.defaultWeights.wWin else 0
  let isThreat := fThreat b1 x y playerID = 1
  let threatScore := if isThreat then cfg.defaultWeights.wThreat else 0
  let replaceScore := fReplace b1 x y playerID (decide isThreat) cfg
  let blocksScore := fBlocks b1 x y playerID cfg
  let formationScore := fFormation b1 x y playerID cfg
  let cell := b1.cells y x
  let isOverwritingDuringThreat := isThreat ∧ cell.ownerID ≠ "" ∧ cell.ownerID ≠ playerID
  let valueScore := fValue card (decide isOverwritingDuringThreat) cfg
  (winScore + threatScore + replaceScore + blocksScore + formationScore + valueScore, b1)

/-- The score of `EvaluateMove` (the Go return value). -/
def evaluateMove (b : Board) (x y card : Int) (playerID : String) (cfg : Config) : Int :=
  (evaluateMoveSt b x y card playerID cfg).1

/-! ## Room turn controller (`internal/room`). -/

/-- A player, from the room manager sources: identity, bot flag, hand
and remaining deck (the name and color fields play no role in the game
logic). -/
structure Player where
  id : String
  isBot : Bool
  hand : List Int
  deck : List Int
deriving DecidableEq, Repr

/-- The room game state: board, ordered players, turn index, optional
winner and draw flag.  (`TurnIdx` is a Go `int` that is only ever
assigned 0 or `(i+1) mod len`, hence non-negative; it is embedded as
`Nat`.) -/
structure Room where
  board : Board
  players : List Player
  turnIdx : Nat
  winnerID : Option String
  draw : Bool

/-- `Manager.currentPlayer`: `nil` on an empty player list, else the
player at `TurnIdx % len(Players)`. -/
def currentPlayer (r : Room) : Option Player :=
  if r.players.length = 0 then none
  else r.players[r.turnIdx % r.players.length]?

/-- Removal of the first occurrence of `card` from a hand (the Go loop
`for i, v := range cp.Hand { if v == card { append(h[:i], h[i+1:]...) } }`). -/
def removeFirstCard : List Int → Int → List Int
  | [], _ => []
  | h :: t, c => if h = c then t else h :: removeFirstCard t c

/-- The legality scan of the manager `ApplyMove`: some generated move
matches the requested `(x, y, card)` (the Go comparison ignores the
move's `PlayerID` field). -/
def containsMoveXYC (moves : List Move) (x y card : Int) : Bool :=
  moves.any fun mv => decide (mv.x = x) && decide (mv.y = y) && decide (mv.card = card)

/-- The hand after the draw step (`if len(cp.Deck) > 0 { hand = append(hand, deck[0]) }`). -/
def drawHand (hand deck : List Int) : List Int :=
  match deck with
  | [] => hand
  | d :: _ => hand ++ [d]

/-- The deck after the draw step (`deck = deck[1:]`, untouched when empty). -/
def drawDeck (deck : List Int) : List Int := deck.tail

/-- `Manager.ApplyMove` of the full room manager (the variant with the
card-in-hand check, deck drawing and early return on a winning move), in
state-passing form: the returned room is the room state at the point the
Go function returns, paired with the error (`none` = accepted).
Broadcasts and store saves are external effects outside the game state. -/
def managerApplyMove (r : Room) (playerID : String) (x y card : Int) :
    Option String × Room :=
  match currentPlayer r with
  | none => (some "not your turn or player invalid", r)
  | some cp =>
    if cp.id ≠ playerID then (some "not your turn or player invalid", r)
    else if ¬ cp.hand.contains card then (some "card not in hand", r)
    else if ¬ containsMoveXYC (generateLegalMoves r.board cp.hand playerID) x y card then
      (some "illegal move", r)
    else
      let b2 := updateVState (applyMove r.board x y playerID card)
      let hand1 := removeFirstCard cp.hand card
      let cp2 := { cp with hand := drawHand hand1 cp.deck, deck := drawDeck cp.deck }
      let players2 := r.players.set (r.turnIdx % r.players.length) cp2
      let r1 := { r with board := b2, players := players2 }
      if isWinningAfter b2 x y playerID card then
        (none, { r1 with winnerID := some playerID })
      else
        (none, { r1 with turnIdx := (r.turnIdx + 1) % r.players.length })

/-- `Manager.ApplyMove` of `internal/room/room.go` (the older variant:
no card-in-hand check, no deck draw, and the turn index advances
unconditionally — even when the winning move just set `WinnerID`). -/
def roomApplyMove (r : Room) (playerID : String) (x y card : Int) :
    Option String × Room :=
  match currentPlayer r with
  | none => (some "not your turn or player invalid", r)
  | some cp =>
    if cp.id ≠ playerID then (some "not your turn or player invalid", r)
    else if ¬ containsMoveXYC (generateLegalMoves r.board cp.hand playerID) x y card then
      (some "illegal move", r)
    else
      let b2 := updateVState (applyMove r.board x y playerID card)
      let cp2 := { cp with hand := removeFirstCard cp.hand card }
      let players2 := r.players.set (r.turnIdx % r.players.length) cp2
      let winner2 := if isWinningAfter b2 x y playerID card then some playerID else r.winnerID
      (none, { r with board := b2, players := players2, winnerID := winner2,
                      turnIdx := (r.turnIdx + 1) % r.players.length })

/-- The 8 neighbor directions of `calculateAdjacentCardValue`, in source
order. -/
def adjDirections : List (Int × Int) :=
  [(-1, 0), (1, 0), (0, -1), (0, 1), (-1, -1), (1, 1), (-1, 1), (1, -1)]

/-- `Manager.calculateAdjacentCardValue`: sum of the values of the
in-bounds neighbors of `(x, y)`.  Note the source indexes
`Cells[nx][ny]` (first loop variable as row), reproduced literally. -/
def calculateAdjacentCardValue (b : Board) (x y : Int) : Int :=
  adjDirections.foldl (fun total d =>
    let nx := x + d.1
    let ny := y + d.2
    if 0 ≤ nx ∧ 0 ≤ ny ∧ nx < (b.size : Int) ∧ ny < (b.size : Int) then
      total + (b.cells nx ny).value
    else total) 0

/-- The per-player total of `determineWinnerByAdjacentValues`:
`playerScores[owner] += calculateAdjacentCardValue(x, y)` over all owned
cells (again with the source's `Cells[x][y]` indexing). -/
def playerScore (b : Board) (playerID : String) : Int :=
  (List.range b.size).foldl (fun acc x =>
    (List.range b.size).foldl (fun acc y =>
      if (b.cells x y).ownerID = playerID then acc + calculateAdjacentCardValue b x y
      else acc) acc) 0

/-- One step of the winner-selection loop of
`determineWinnerByAdjacentValues` (`if score > highestScore`). -/
def selStep (b : Board) (acc : String × Int) (playerID : String) : String × Int :=
  if playerScore b playerID > acc.2 then (playerID, playerScore b playerID) else acc

/-- The winner-selection loop of `determineWinnerByAdjacentValues`.
The Go source iterates a `map[string]int`, whose order is unspecified;
`ids` is that iteration order made explicit (each board owner once). -/
def selectWinner (b : Board) (ids : List String) : String × Int :=
  ids.foldl (selStep b) ("", -1)

/-- `Manager.CheckEndgame` (with `determineWinnerByAdjacentValues`
inlined): do nothing if a winner exists; if no player has a legal move,
set the winner to the highest scorer by adjacent card values (when the
selection produced a non-empty id).  `ids` is the map iteration order,
see `selectWinner`. -/
def checkEndgame (r : Room) (ids : List String) : Room :=
  if r.winnerID ≠ none then r
  else if r.players.all (fun p => (generateLegalMoves r.board p.hand p.id).isEmpty) then
    if (selectWinner r.board ids).1 ≠ "" then
      { r with winnerID := some (selectWinner r.board ids).1 }
    else r
  else r

/-- A move request sent to the turn controller. -/
structure Req where
  playerID : String
  x : Int
  y : Int
  card : Int

/-- Running a sequence of move requests through the manager
`ApplyMove`; rejected requests leave the room unchanged (proved below),
so this covers exactly the accepted-move sequences of the claim. -/
def runTrace (r : Room) : List Req → Room
  | [] => r
  | q :: qs => runTrace (managerApplyMove r q.playerID q.x q.y q.card).2 qs

/-! ## Concrete scenarios used by the witnesses and counterexamples. -/

/-- A 5×5 board with a diagonal of three cells of value 1 owned by
player `A`, before virtual-state recomputation. -/
def bDiagRaw : Board :=
  { size := 5
    cells := fun j i =>
      if (j = 1 ∧ i = 1) ∨ (j = 2 ∧ i = 2) ∨ (j = 3 ∧ i = 3) then
        { value := 1, vState := CellVState.accessible, ownerID := "A" }
      else emptyCell }

/-- `bDiagRaw` with recomputed virtual states (the state a live room
holds after `UpdateVState`). -/
def bDiag : Board := updateVState bDiagRaw

/-- Player `A` holding a single card 1. -/
def pHandA : Player := { id := "A", isBot := false, hand := [1], deck := [] }

/-- Player `B` with an empty hand. -/
def pEmptyB : Player := { id := "B", isBot := false, hand := [], deck := [] }

/-- A two-player room on `bDiag` where `A`, to move, can win by placing
at `(4, 4)`. -/
def rDiag : Room :=
  { board := bDiag, players := [pHandA, pEmptyB], turnIdx := 0, winnerID := none
    draw := false }

/-- A 5×5 board whose cell `(2, 2)` holds a value-1 card of player `A`,
with recomputed virtual states: the C4 overwrite scenario. -/
def bOwn : Board :=
  updateVState
    { size := 5
      cells := fun j i =>
        if j = 2 ∧ i = 2 then { value := 1, vState := CellVState.accessible, ownerID := "A" }
        else emptyCell }

/-- A 5×5 board with an isolated 9 of player `A` and two adjacent 1s of
player `B`, with recomputed virtual states: the C1 endgame scenario. -/
def bEnd : Board :=
  updateVState
    { size := 5
      cells := fun j i =>
        if j = 0 ∧ i = 0 then { value := 9, vState := CellVState.accessible, ownerID := "A" }
        else if j = 3 ∧ (i = 3 ∨ i = 4) then
          { value := 1, vState := CellVState.accessible, ownerID := "B" }
        else emptyCell }

/-- Player `A` with an empty hand. -/
def pEmptyA : Player := { id := "A", isBot := false, hand := [], deck := [] }

/-- The endgame room: both players still seated, hands exhausted, no
winner yet. -/
def rEnd : Room :=
  { board := bEnd
    players := [pEmptyA, pEmptyB]
    turnIdx := 0, winnerID := none, draw := false }

/-- A 5×5 board with a horizontal run of three value-1 cells of `A` in
row 0 (columns 0–2), with recomputed virtual states: the C6 scenario
(placing at `(3, 0)` wins, placing at `(4, 4)` does not). -/
def bRow : Board :=
  updateVState
    { size := 5
      cells := fun j i =>
        if j = 0 ∧ (i = 0 ∨ i = 1 ∨ i = 2) then
          { value := 1, vState := CellVState.accessible, ownerID := "A" }
        else emptyCell }

/-- A 5×5 board as `bRow` but with a horizontal run of four value-1
cells of `A` in row 0 (columns 0–3). -/
def bRow4 : Board :=
  updateVState
    { size := 5
      cells := fun j i =>
        if j = 0 ∧ (i = 0 ∨ i = 1 ∨ i = 2 ∨ i = 3) then
          { value := 1, vState := CellVState.accessible, ownerID := "A" }
        else emptyCell }

/-- An empty 9×9 board with recomputed virtual states: the first-move
scenario. -/
def bEmpty9 : Board := updateVState (newBoard 9)

/-- Player `A` holding the starting hand `[1, 2, 3]`. -/
def pHandA123 : Player := { id := "A", isBot := false, hand := [1, 2, 3], deck := [] }

/-- A fresh two-player room on the empty 9×9 board. -/
def rFresh : Room :=
  { board := bEmpty9
    players := [pHandA123, pEmptyB]
    turnIdx := 0, winnerID := none, draw := false }

/-- A 5×5 board for the C8 witness: `A` owns `(1, 1)` with value 9 and
`B` owns `(2, 2)` with value 2; `A` is to move holding a 3. -/
def bNine : Board :=
  updateVState
    { size := 5
      cells := fun j i =>
        if j = 1 ∧ i = 1 then { value := 9, vState := CellVState.accessible, ownerID := "A" }
        else if j = 2 ∧ i = 2 then { value := 2, vState := CellVState.accessible, ownerID := "B" }
        else emptyCell }

/-- Player `A` holding a single card 3. -/
def pHand3A : Player := { id := "A", isBot := false, hand := [3], deck := [] }

/-- The C8 witness room on `bNine`. -/
def rNine : Room :=
  { board := bNine
    players := [pHand3A, pEmptyB]
    turnIdx := 0, winnerID := none, draw := false }

/-! ## Basic lemmas about the embedded operations. -/

/-- All the board transformers preserve the size. -/
lemma updateVState_size (b : Board) : (updateVState b).size = b.size := rfl

lemma applyMove_size (b : Board) (x y : Int) (o : String) (c : Int) :
    (applyMove b x y o c).size = b.size := rfl

/-- `updateVState` changes only `vState` fields. -/
lemma updateVState_value_owner (b : Board) (i j : Int) :
    ((updateVState b).cells j i).value = (b.cells j i).value ∧
    ((updateVState b).cells j i).ownerID = (b.cells j i).ownerID := by
  unfold updateVState
  dsimp only
  split_ifs <;> simp

/-- `updateLocalVState` changes only `vState` fields. -/
lemma updateLocalVState_value_owner (b : Board) (x y i j : Int) :
    ((updateLocalVState b x y).cells j i).value = (b.cells j i).value ∧
    ((updateLocalVState b x y).cells j i).ownerID = (b.cells j i).ownerID := by
  unfold updateLocalVState
  dsimp only
  split_ifs <;> simp

/-- `setCellOwnerValue` leaves every other cell untouched. -/
lemma setCellOwnerValue_other (b : Board) (x y : Int) (o : String) (c : Int)
    (i j : Int) (h : ¬(j = y ∧ i = x)) :
    (setCellOwnerValue b x y o c).cells j i = b.cells j i := by
  unfold setCellOwnerValue
  simp [h]

/-- `applyMove` preserves value and owner of every cell other than the
placed one. -/
lemma applyMove_other (b : Board) (x y : Int) (o : String) (c : Int)
    (i j : Int) (h : ¬(j = y ∧ i = x)) :
    ((applyMove b x y o c).cells j i).value = (b.cells j i).value ∧
    ((applyMove b x y o c).cells j i).ownerID = (b.cells j i).ownerID := by
  unfold applyMove
  have h1 := updateLocalVState_value_owner (setCellOwnerValue b x y o c) x y i j
  rw [h1.1, h1.2, setCellOwnerValue_other b x y o c i j h]
  exact ⟨rfl, rfl⟩

/-- On a board that passes the empty check, every in-bounds cell has
value 0. -/
lemma boardEmptyCheck_value (b : Board) (h : boardEmptyCheck b = true) (x y : Int)
    (hin : inB x y b.size) : (b.cells y x).value = 0 := by
  obtain ⟨hx0, hxlt, hy0, hylt⟩ := hin
  unfold boardEmptyCheck at h
  rw [List.all_eq_true] at h
  have hy := h y.toNat (List.mem_range.mpr (by omega))
  rw [List.all_eq_true] at hy
  have hx := hy x.toNat (List.mem_range.mpr (by omega))
  rw [decide_eq_true_iff] at hx
  rwa [Int.toNat_of_nonneg hy0, Int.toNat_of_nonneg hx0] at hx

/-- Every run of `managerApplyMove` either accepts the move or leaves
the room exactly as it was. -/
lemma managerApplyMove_cases (r : Room) (pid : String) (x y card : Int) :
    (managerApplyMove r pid x y card).1 = none ∨
    (managerApplyMove r pid x y card).2 = r := by
  unfold managerApplyMove
  cases hcp : currentPlayer r with
  | none => exact Or.inr rfl
  | some cp =>
    dsimp only
    by_cases h1 : cp.id ≠ pid
    · rw [if_pos h1]; exact Or.inr rfl
    · rw [if_neg h1]
      by_cases h2 : ¬ cp.hand.contains card
      · rw [if_pos h2]; exact Or.inr rfl
      · rw [if_neg h2]
        by_cases h3 : ¬ containsMoveXYC (generateLegalMoves r.board cp.hand pid) x y card
        · rw [if_pos h3]; exact Or.inr rfl
        · rw [if_neg h3]
          left
          split_ifs <;> rfl

/-- A rejected `managerApplyMove` performs no state change. -/
lemma managerApplyMove_err (r : Room) (pid : String) (x y card : Int)
    (h : (managerApplyMove r pid x y card).1 ≠ none) :
    (managerApplyMove r pid x y card).2 = r :=
  (managerApplyMove_cases r pid x y card).resolve_left h

/-- An accepted `managerApplyMove` passed all three checks. -/
lemma managerApplyMove_accepted (r : Room) (pid : String) (x y card : Int)
    (h : (managerApplyMove r pid x y card).1 = none) :
    ∃ cp, currentPlayer r = some cp ∧ cp.id = pid ∧ cp.hand.contains card = true ∧
      containsMoveXYC (generateLegalMoves r.board cp.hand pid) x y card = true := by
  unfold managerApplyMove at h
  cases hcp : currentPlayer r with
  | none => rw [hcp] at h; exact absurd h (by simp)
  | some cp =>
    rw [hcp] at h
    dsimp only at h
    refine ⟨cp, rfl, ?_⟩
    by_cases h1 : cp.id ≠ pid
    · rw [if_pos h1] at h; exact absurd h (by simp)
    · rw [if_neg h1] at h
      by_cases h2 : ¬ cp.hand.contains card
      · rw [if_pos h2] at h; exact absurd h (by simp)
      · rw [if_neg h2] at h
        by_cases h3 : ¬ containsMoveXYC (generateLegalMoves r.board cp.hand pid) x y card
        · rw [if_pos h3] at h; exact absurd h (by simp)
        · exact ⟨not_not.mp (fun hne => h1 hne), by simpa using h2, by simpa using h3⟩

/-- The board an accepted `managerApplyMove` leaves behind: both the
winning and the non-winning exit return the recomputed board. -/
lemma managerApplyMove_accepted_board (r : Room) (pid : String) (x y card : Int)
    (h : (managerApplyMove r pid x y card).1 = none) :
    (managerApplyMove r pid x y card).2.board
      = updateVState (applyMove r.board x y pid card) := by
  unfold managerApplyMove at *
  cases hcp : currentPlayer r with
  | none => rw [hcp] at h; exact absurd h (by simp)
  | some cp =>
    rw [hcp] at h
    dsimp only at h ⊢
    by_cases h1 : cp.id ≠ pid
    · rw [if_pos h1] at h; exact absurd h (by simp)
    · rw [if_neg h1] at h ⊢
      by_cases h2 : ¬ cp.hand.contains card
      · rw [if_pos h2] at h; exact absurd h (by simp)
      · rw [if_neg h2] at h ⊢
        by_cases h3 : ¬ containsMoveXYC (generateLegalMoves r.board cp.hand pid) x y card
        · rw [if_pos h3] at h; exact absurd h (by simp)
        · rw [if_neg h3]
          split_ifs <;> rfl

/-- Writing back the owner read before the temporary write restores the
board exactly. -/
lemma setOwnerOnly_restore (b : Board) (x y : Int) (pid : String) :
    setOwnerOnly (setOwnerOnly b x y pid) x y ((b.cells y x).ownerID) = b := by
  cases b with
  | mk size cells =>
    unfold setOwnerOnly
    dsimp only
    congr 1
    funext j i
    by_cases h : j = y ∧ i = x
    · obtain ⟨hj, hi⟩ := h
      subst hj; subst hi
      simp
    · simp [h]

/-- `f_win` hands back the board it received. -/
lemma fWinSt_snd (b : Board) (x y : Int) (pid : String) :
    (fWinSt b x y pid).2 = b :=
  setOwnerOnly_restore b x y pid

/-! ## Claim theorems. -/

/-- C5: whenever the manager `ApplyMove` returns an error (wrong-turn
caller, card not in hand, or move not generated by
`GenerateLegalMoves`), the room it leaves behind — board, hands, decks,
turn index and winner — is exactly the room it received. -/
theorem claim5_rejected_moves_atomic (r : Room) (pid : String) (x y card : Int)
    (h : (managerApplyMove r pid x y card).1 ≠ none) :
    (managerApplyMove r pid x y card).2 = r :=
  managerApplyMove_err r pid x y card h

/-- Witness for C5: a move by the non-current player is rejected and the
room is unchanged. -/
theorem claim5_witness :
    (managerApplyMove rDiag "B" 0 0 1).1 ≠ none ∧
    (managerApplyMove rDiag "B" 0 0 1).2 = rDiag :=
  ⟨by decide, claim5_rejected_moves_atomic rDiag "B" 0 0 1 (by decide)⟩

/-- C3 (amended): after `UpdateVState`, an in-bounds cell is classified
as: value 9 → `CellAccessible`; otherwise occupied → `CellReplaceable`;
otherwise (empty) with an occupied Moore neighbor → `CellBlocked`;
otherwise (empty and isolated) → `CellAccessible`.  The spec's claim
swaps the two empty cases: in the code it is the empty cell *with* an
occupied neighbor that is marked `CellBlocked` (and that very state is
what the legality engine treats as placeable), while the empty isolated
cell keeps `CellAccessible`. -/
theorem claim3_amended_vstate_classification (b : Board) (x y : Int)
    (hin : inB x y b.size) :
    (((b.cells y x).value = 9 →
        ((updateVState b).cells y x).vState = CellVState.accessible) ∧
     ((b.cells y x).value ≠ 9 → (b.cells y x).value ≠ 0 →
        ((updateVState b).cells y x).vState = CellVState.replaceable) ∧
     ((b.cells y x).value = 0 → hasFilledNeighbor b x y = true →
        ((updateVState b).cells y x).vState = CellVState.blocked) ∧
     ((b.cells y x).value = 0 → hasFilledNeighbor b x y = false →
        ((updateVState b).cells y x).vState = CellVState.accessible)) := by
  have hcell : (updateVState b).cells y x
      = { b.cells y x with vState := classifyVState b x y } := by
    unfold updateVState
    dsimp only
    rw [if_pos hin]
  refine ⟨?_, ?_, ?_, ?_⟩
  · intro h9
    simp [hcell, classifyVState, h9]
  · intro h9 h0
    simp [hcell, classifyVState, h9, h0]
  · intro h0 hn
    simp [hcell, classifyVState, h0, hn]
  · intro h0 hn
    simp [hcell, classifyVState, h0, hn]

/-- Counterexample for C3 as stated: on the freshly created board every
cell is empty and isolated, and `UpdateVState` marks it
`CellAccessible`, not `CellBlocked` as the claim requires. -/
theorem claim3_counterexample :
    ((newBoard 9).cells 0 0).value = 0 ∧
    hasFilledNeighbor (newBoard 9) 0 0 = false ∧
    ((updateVState (newBoard 9)).cells 0 0).vState = CellVState.accessible ∧
    CellVState.accessible ≠ CellVState.blocked := by decide

/-- Witness for C3 (amended): an empty cell next to an occupied cell is
classified `CellBlocked`. -/
theorem claim3_witness :
    inB 2 1 bDiagRaw.size ∧ (bDiagRaw.cells 1 2).value = 0 ∧
    hasFilledNeighbor bDiagRaw 2 1 = true ∧
    ((updateVState bDiagRaw).cells 1 2).vState = CellVState.blocked :=
  ⟨by decide, by decide, by decide,
    (claim3_amended_vstate_classification bDiagRaw 2 1 (by decide)).2.2.1
      (by decide) (by decide)⟩

/-- C10: `EvaluateMove` is mutation-free and deterministic at its
interface: the board after a call is exactly the board before it (the
temporary ownership write inside `f_win` is rolled back), and hence a
second call on the state the first call left behind returns the same
score. -/
theorem claim10_evaluate_pure (b : Board) (x y card : Int) (pid : String)
    (cfg : Config) :
    (evaluateMoveSt b x y card pid cfg).2 = b ∧
    (evaluateMoveSt (evaluateMoveSt b x y card pid cfg).2 x y card pid cfg).1
      = (evaluateMoveSt b x y card pid cfg).1 := by
  have h2 : (evaluateMoveSt b x y card pid cfg).2 = b := fWinSt_snd b x y pid
  exact ⟨h2, by rw [h2]⟩

/-- `EvaluateMove` as the explicit sum of its six factors, all read on
the original board (possible because `f_win` restores it). -/
lemma evaluateMove_eq (b : Board) (x y card : Int) (pid : String) (cfg : Config) :
    evaluateMove b x y card pid cfg =
      (if (fWinSt b x y pid).1 = 1 then cfg.defaultWeights.wWin else 0)
      + (if fThreat b x y pid = 1 then cfg.defaultWeights.wThreat else 0)
      + fReplace b x y pid (decide (fThreat b x y pid = 1)) cfg
      + fBlocks b x y pid cfg
      + fFormation b x y pid cfg
      + fValue card (decide (fThreat b x y pid = 1 ∧ (b.cells y x).ownerID ≠ "" ∧
          (b.cells y x).ownerID ≠ pid)) cfg := by
  unfold evaluateMove evaluateMoveSt
  simp only [fWinSt_snd]

/-- The individual default weights, read off `defaultConfig`. -/
lemma dwWWin : defaultConfig.defaultWeights.wWin = 10000 := rfl

lemma dwWThreat : defaultConfig.defaultWeights.wThreat = 200 := rfl

lemma dwReplaceWhenThreat : defaultConfig.defaultWeights.replaceWhenThreat = 200 := rfl

lemma dwReplacePosMiddle : defaultConfig.defaultWeights.replacePosMiddle = 75 := rfl

lemma dwReplacePosSide : defaultConfig.defaultWeights.replacePosSide = 50 := rfl

lemma dwBlockWhenThreat : defaultConfig.defaultWeights.blockWhenThreat = 100 := rfl

lemma dwBlockPotential : defaultConfig.defaultWeights.blockPotential = 70 := rfl

lemma dwBuildAlignment2 : defaultConfig.defaultWeights.buildAlignment2 = 50 := rfl

lemma dwBuildAlignment3 : defaultConfig.defaultWeights.buildAlignment3 = 100 := rfl

/-- The threat-response card table of the default configuration, in
closed form. -/
lemma dwReplaceValuesThreat (c : Int) :
    defaultConfig.defaultWeights.replaceValuesThreat c =
      if c = 1 then 20 else if c = 2 then 30 else if c = 3 then 40
      else if c = 4 then 50 else if c = 5 then 60 else if c = 6 then 70
      else if c = 7 then 80 else if c = 8 then 90 else if c = 9 then 100
      else 0 := rfl

/-- The conservation card table of the default configuration, in closed
form. -/
lemma dwReplaceValuesPotential (c : Int) :
    defaultConfig.defaultWeights.replaceValuesPotential c =
      if c = 1 then 100 else if c = 2 then 90 else if c = 3 then 80
      else if c = 4 then 70 else if c = 5 then 60 else if c = 6 then 50
      else if c = 7 then 40 else if c = 8 then 30 else if c = 9 then 20
      else 0 := rfl

/-- Bound for the replace factor under the default configuration. -/
lemma fReplace_bound (b : Board) (x y : Int) (pid : String) (t : Bool) :
    0 ≤ fReplace b x y pid t defaultConfig ∧
    fReplace b x y pid t defaultConfig ≤ 275 := by
  unfold fReplace
  rw [dwReplaceWhenThreat, dwReplacePosMiddle, dwReplacePosSide]
  dsimp only
  split_ifs <;> omega

set_option maxHeartbeats 2000000 in
/-- Bound for the block factor under the default configuration. -/
lemma fBlocks_bound (b : Board) (x y : Int) (pid : String) :
    0 ≤ fBlocks b x y pid defaultConfig ∧ fBlocks b x y pid defaultConfig ≤ 400 := by
  unfold fBlocks dirs
  rw [dwBlockWhenThreat, dwBlockPotential]
  simp only [List.foldl_cons, List.foldl_nil]
  split_ifs <;> omega

/-- Bound for the formation factor under the default configuration. -/
lemma fFormation_bound (b : Board) (x y : Int) (pid : String) :
    0 ≤ fFormation b x y pid defaultConfig ∧
    fFormation b x y pid defaultConfig ≤ 100 := by
  unfold fFormation
  rw [dwBuildAlignment2, dwBuildAlignment3]
  dsimp only
  split_ifs <;> omega

set_option maxHeartbeats 2000000 in
/-- Bound for the card-value factor under the default configuration
(both per-card tables take values in `[0, 100]`). -/
lemma fValue_bound (card : Int) (t : Bool) :
    0 ≤ fValue card t defaultConfig ∧ fValue card t defaultConfig ≤ 100 := by
  unfold fValue
  rw [dwReplaceValuesThreat, dwReplaceValuesPotential]
  split_ifs <;> omega

/-- C6: with the default weights, a placement whose `f_win` factor fires
scores strictly higher than any placement whose `f_win` factor does not:
the winning move scores at least `W_win = 10000` while the non-win
factors sum to at most `200 + 275 + 400 + 100 + 100 = 1075 < 10000`. -/
theorem claim6_win_dominates (b : Board) (x1 y1 x2 y2 card1 card2 : Int)
    (pid : String)
    (h1 : (fWinSt b x1 y1 pid).1 = 1) (h2 : (fWinSt b x2 y2 pid).1 = 0) :
    evaluateMove b x2 y2 card2 pid defaultConfig
      < evaluateMove b x1 y1 card1 pid defaultConfig := by
  rw [evaluateMove_eq, evaluateMove_eq, h1, h2]
  have r1 := fReplace_bound b x1 y1 pid (decide (fThreat b x1 y1 pid = 1))
  have r2 := fReplace_bound b x2 y2 pid (decide (fThreat b x2 y2 pid = 1))
  have bb1 := fBlocks_bound b x1 y1 pid
  have bb2 := fBlocks_bound b x2 y2 pid
  have f1 := fFormation_bound b x1 y1 pid
  have f2 := fFormation_bound b x2 y2 pid
  have v1 := fValue_bound card1 (decide (fThreat b x1 y1 pid = 1 ∧
    (b.cells y1 x1).ownerID ≠ "" ∧ (b.cells y1 x1).ownerID ≠ pid))
  have v2 := fValue_bound card2 (decide (fThreat b x2 y2 pid = 1 ∧
    (b.cells y2 x2).ownerID ≠ "" ∧ (b.cells y2 x2).ownerID ≠ pid))
  have hw1 : (if (1 : Int) = 1 then defaultConfig.defaultWeights.wWin else 0) = 10000 := by
    rw [if_pos rfl, dwWWin]
  have hw2 : (if (0 : Int) = 1 then defaultConfig.defaultWeights.wWin else 0) = 0 := by
    norm_num
  rw [hw1, hw2]
  have ht1 : 0 ≤ (if fThreat b x1 y1 pid = 1 then defaultConfig.defaultWeights.wThreat
      else 0) := by rw [dwWThreat]; split_ifs <;> omega
  have ht2 : (if fThreat b x2 y2 pid = 1 then defaultConfig.defaultWeights.wThreat
      else 0) ≤ 200 := by rw [dwWThreat]; split_ifs <;> omega
  omega

/-- Witness for C6: on the three-in-a-row board, completing the row at
`(3, 0)` beats the non-winning placement at `(4, 4)`. -/
theorem claim6_witness :
    (fWinSt bRow 3 0 "A").1 = 1 ∧ (fWinSt bRow 4 4 "A").1 = 0 ∧
    evaluateMove bRow 4 4 7 "A" defaultConfig
      < evaluateMove bRow 3 0 2 "A" defaultConfig :=
  ⟨by decide, by decide,
    claim6_win_dominates bRow 3 0 4 4 2 7 "A" (by decide) (by decide)⟩

/-- Soundness of the directional run scan: every position strictly
before the end of the run is in bounds and owned. -/
lemma runLen_sound (b : Board) (own : String) (di dj : Int) :
    ∀ (fuel : Nat) (i j : Int) (k : Nat), k < runLen b i j di dj own fuel →
      inB (i + (k : Int) * di) (j + (k : Int) * dj) b.size ∧
      (b.cells (j + (k : Int) * dj) (i + (k : Int) * di)).ownerID = own := by
  intro fuel
  induction fuel with
  | zero => intro i j k hk; simp [runLen] at hk
  | succ n ih =>
    intro i j k hk
    rw [runLen] at hk
    by_cases hcond : inB i j b.size ∧ (b.cells j i).ownerID = own
    · rw [if_pos hcond] at hk
      cases k with
      | zero => simpa using hcond
      | succ k' =>
        have hk' : k' < runLen b (i + di) (j + dj) di dj own n := by omega
        have h := ih (i + di) (j + dj) k' hk'
        have e1 : (i + di) + (k' : Int) * di = i + ((k' + 1 : Nat) : Int) * di := by
          push_cast; ring
        have e2 : (j + dj) + (k' : Int) * dj = j + ((k' + 1 : Nat) : Int) * dj := by
          push_cast; ring
        rw [e1, e2] at h
        exact h
    · rw [if_neg hcond] at hk; omega

/-- Completeness of the directional run scan: a chain of `m ≤ fuel`
in-bounds owned positions forces a run of length at least `m`. -/
lemma runLen_complete (b : Board) (own : String) (di dj : Int) :
    ∀ (fuel : Nat) (i j : Int) (m : Nat), m ≤ fuel →
      (∀ k : Nat, k < m →
        inB (i + (k : Int) * di) (j + (k : Int) * dj) b.size ∧
        (b.cells (j + (k : Int) * dj) (i + (k : Int) * di)).ownerID = own) →
      m ≤ runLen b i j di dj own fuel := by
  intro fuel
  induction fuel with
  | zero => intro i j m hm _; omega
  | succ n ih =>
    intro i j m hm hcells
    cases m with
    | zero => exact Nat.zero_le _
    | succ m' =>
      have h0 := hcells 0 (by omega)
      simp only [Nat.cast_zero, zero_mul, add_zero] at h0
      rw [runLen, if_pos h0]
      have hrec : m' ≤ runLen b (i + di) (j + dj) di dj own n := by
        apply ih (i + di) (j + dj) m' (by omega)
        intro k hk
        have h := hcells (k + 1) (by omega)
        have e1 : i + ((k + 1 : Nat) : Int) * di = (i + di) + (k : Int) * di := by
          push_cast; ring
        have e2 : j + ((k + 1 : Nat) : Int) * dj = (j + dj) + (k : Int) * dj := by
          push_cast; ring
        rw [e1, e2] at h
        exact h
      omega

/-- The spec-side notion for C7, written from the spec's words: in some
scan direction there is a contiguous segment of at least 4 same-owner
board cells through `(x, y)` — `a` cells backward, the cell itself, and
`c` cells forward, with `1 + a + c ≥ 4`. -/
def specLineThrough (b : Board) (x y : Int) (owner : String) : Prop :=
  (b.cells y x).ownerID = owner ∧
  ∃ d ∈ dirs, ∃ a c : Nat, 3 ≤ a + c ∧
    (∀ i : Nat, 1 ≤ i → i ≤ a →
      inB (x - (i : Int) * d.1) (y - (i : Int) * d.2) b.size ∧
      (b.cells (y - (i : Int) * d.2) (x - (i : Int) * d.1)).ownerID = owner) ∧
    (∀ i : Nat, 1 ≤ i → i ≤ c →
      inB (x + (i : Int) * d.1) (y + (i : Int) * d.2) b.size ∧
      (b.cells (y + (i : Int) * d.2) (x + (i : Int) * d.1)).ownerID = owner)

/-- A backward/forward chain of in-bounds cells along one of the four
scan directions cannot be longer than the board side. -/
lemma chain_le_size (b : Board) (x y : Int) (owner : String) (d : Int × Int)
    (hd : d ∈ dirs) (hin : inB x y b.size) (a c : Nat)
    (hback : ∀ i : Nat, 1 ≤ i → i ≤ a →
      inB (x - (i : Int) * d.1) (y - (i : Int) * d.2) b.size ∧
      (b.cells (y - (i : Int) * d.2) (x - (i : Int) * d.1)).ownerID = owner)
    (hfwd : ∀ i : Nat, 1 ≤ i → i ≤ c →
      inB (x + (i : Int) * d.1) (y + (i : Int) * d.2) b.size ∧
      (b.cells (y + (i : Int) * d.2) (x + (i : Int) * d.1)).ownerID = owner) :
    a ≤ b.size ∧ c ≤ b.size := by
  simp only [dirs, List.mem_cons, List.not_mem_nil, or_false] at hd
  constructor
  · rcases Nat.eq_zero_or_pos a with ha | ha
    · omega
    · have h := (hback a (by omega) (le_refl a)).1
      unfold inB at h hin
      rcases hd with h1 | h1 | h1 | h1 <;> subst h1 <;> simp at h <;> omega
  · rcases Nat.eq_zero_or_pos c with hc | hc
    · omega
    · have h := (hfwd c (by omega) (le_refl c)).1
      unfold inB at h hin
      rcases hd with h1 | h1 | h1 | h1 <;> subst h1 <;> simp at h <;> omega

/-- C7: for a board cell `(x, y)` owned by `owner`, `IsWinningAfter`
returns true exactly when some direction carries at least 4 contiguous
same-owner cells through `(x, y)`; in particular it is true at maximal
counts 4 and 5 and false at 3, since the spec-side segment requires
`1 + a + c ≥ 4`. -/
theorem claim7_win_detection_symmetry (b : Board) (x y : Int) (owner : String)
    (card : Int) (hin : inB x y b.size)
    (hown : (b.cells y x).ownerID = owner) :
    isWinningAfter b x y owner card = true ↔ specLineThrough b x y owner := by
  constructor
  · intro h
    rw [isWinningAfter, List.any_eq_true] at h
    obtain ⟨d, hd, hcnt⟩ := h
    rw [decide_eq_true_iff] at hcnt
    refine ⟨hown, d, hd,
      runLen b (x - d.1) (y - d.2) (-d.1) (-d.2) owner b.size,
      runLen b (x + d.1) (y + d.2) d.1 d.2 owner b.size,
      by omega, ?_, ?_⟩
    · intro i h1 hi
      have hs := runLen_sound b owner (-d.1) (-d.2) b.size (x - d.1) (y - d.2)
        (i - 1) (by omega)
      have hi1 : ((i - 1 : Nat) : Int) = (i : Int) - 1 := by omega
      have e1 : (x - d.1) + ((i - 1 : Nat) : Int) * (-d.1) = x - (i : Int) * d.1 := by
        rw [hi1]; ring
      have e2 : (y - d.2) + ((i - 1 : Nat) : Int) * (-d.2) = y - (i : Int) * d.2 := by
        rw [hi1]; ring
      rw [e1, e2] at hs
      exact hs
    · intro i h1 hi
      have hs := runLen_sound b owner d.1 d.2 b.size (x + d.1) (y + d.2)
        (i - 1) (by omega)
      have hi1 : ((i - 1 : Nat) : Int) = (i : Int) - 1 := by omega
      have e1 : (x + d.1) + ((i - 1 : Nat) : Int) * d.1 = x + (i : Int) * d.1 := by
        rw [hi1]; ring
      have e2 : (y + d.2) + ((i - 1 : Nat) : Int) * d.2 = y + (i : Int) * d.2 := by
        rw [hi1]; ring
      rw [e1, e2] at hs
      exact hs
  · rintro ⟨-, d, hd, a, c, habc, hback, hfwd⟩
    rw [isWinningAfter, List.any_eq_true]
    refine ⟨d, hd, ?_⟩
    rw [decide_eq_true_iff]
    obtain ⟨ha_le, hc_le⟩ := chain_le_size b x y owner d hd hin a c hback hfwd
    have hB : a ≤ runLen b (x - d.1) (y - d.2) (-d.1) (-d.2) owner b.size := by
      apply runLen_complete b owner (-d.1) (-d.2) b.size (x - d.1) (y - d.2) a ha_le
      intro k hk
      have h := hback (k + 1) (by omega) (by omega)
      have e1 : x - ((k + 1 : Nat) : Int) * d.1 = (x - d.1) + (k : Int) * (-d.1) := by
        push_cast; ring
      have e2 : y - ((k + 1 : Nat) : Int) * d.2 = (y - d.2) + (k : Int) * (-d.2) := by
        push_cast; ring
      rw [e1, e2] at h
      exact h
    have hF : c ≤ runLen b (x + d.1) (y + d.2) d.1 d.2 owner b.size := by
      apply runLen_complete b owner d.1 d.2 b.size (x + d.1) (y + d.2) c hc_le
      intro k hk
      have h := hfwd (k + 1) (by omega) (by omega)
      have e1 : x + ((k + 1 : Nat) : Int) * d.1 = (x + d.1) + (k : Int) * d.1 := by
        push_cast; ring
      have e2 : y + ((k + 1 : Nat) : Int) * d.2 = (y + d.2) + (k : Int) * d.2 := by
        push_cast; ring
      rw [e1, e2] at h
      exact h
    omega

/-- Witness for C7: the equivalence instantiated on a board with a
horizontal run of exactly 4 (detected as a win), next to the same board
with a run of exactly 3 (not detected). -/
theorem claim7_witness :
    inB 1 0 bRow4.size ∧ (bRow4.cells 0 1).ownerID = "A" ∧
    (isWinningAfter bRow4 1 0 "A" 5 = true ↔ specLineThrough bRow4 1 0 "A") ∧
    isWinningAfter bRow4 1 0 "A" 5 = true ∧
    isWinningAfter bRow 1 0 "A" 5 = false :=
  ⟨by decide, by decide,
    claim7_win_detection_symmetry bRow4 1 0 "A" 5 (by decide) (by decide),
    by decide, by decide⟩

/-- Membership characterization for the per-cell move generation of the
regular branch of `GenerateLegalMoves`. -/
lemma mem_movesForCell (cell : Cell) (x y : Int) (hand : List Int) (pid : String)
    (mv : Move) :
    mv ∈ movesForCell cell x y hand pid ↔
      ¬(cell.vState = CellVState.accessible ∧ cell.value = 0) ∧ cell.value ≠ 9 ∧
      mv.x = x ∧ mv.y = y ∧ mv.playerID = pid ∧ mv.card ∈ hand ∧
      (cell.value = 0 ∨ (cell.value < mv.card ∧ cell.ownerID ≠ pid)) := by
  obtain ⟨mx, my, mc, mp⟩ := mv
  unfold movesForCell
  by_cases h1 : cell.vState = CellVState.accessible ∧ cell.value = 0
  · rw [if_pos h1]; simp [h1]
  · rw [if_neg h1]
    by_cases h2 : cell.value = 9
    · rw [if_pos h2]; simp [h2]
    · rw [if_neg h2]
      rw [List.mem_filterMap]
      constructor
      · rintro ⟨card, hcard, hsome⟩
        by_cases hv : cell.value = 0
        · rw [if_pos hv] at hsome
          injection hsome with he
          rw [Move.mk.injEq] at he
          obtain ⟨e1, e2, e3, e4⟩ := he
          subst e1; subst e2; subst e3; subst e4
          exact ⟨h1, h2, rfl, rfl, rfl, hcard, Or.inl hv⟩
        · rw [if_neg hv] at hsome
          by_cases hle : card ≤ cell.value
          · rw [if_pos hle] at hsome; exact absurd hsome (by simp)
          · rw [if_neg hle] at hsome
            by_cases how : cell.ownerID = pid
            · rw [if_pos how] at hsome; exact absurd hsome (by simp)
            · rw [if_neg how] at hsome
              injection hsome with he
              rw [Move.mk.injEq] at he
              obtain ⟨e1, e2, e3, e4⟩ := he
              subst e1; subst e2; subst e3; subst e4
              exact ⟨h1, h2, rfl, rfl, rfl, hcard, Or.inr ⟨by dsimp only; omega, how⟩⟩
      · rintro ⟨_, _, hx, hy, hp, hcard, hdisj⟩
        dsimp only at hx hy hp hcard hdisj
        subst hx; subst hy; subst hp
        refine ⟨mc, hcard, ?_⟩
        by_cases hv : cell.value = 0
        · rw [if_pos hv]
        · rw [if_neg hv]
          rcases hdisj with hv0 | ⟨hlt, how⟩
          · exact absurd hv0 hv
          · rw [if_neg (by omega), if_neg how]

/-- Membership in `GenerateLegalMoves` on a non-empty board reduces to a
cell of the scan. -/
lemma mem_generateLegalMoves_reg (b : Board) (hand : List Int) (pid : String)
    (mv : Move) (hne : boardEmptyCheck b = false) :
    mv ∈ generateLegalMoves b hand pid ↔
      ∃ yy : Nat, yy < b.size ∧ ∃ xx : Nat, xx < b.size ∧
        mv ∈ movesForCell (b.cells (yy : Int) (xx : Int)) (xx : Int) (yy : Int)
              hand pid := by
  unfold generateLegalMoves
  rw [if_neg (by simp [hne])]
  simp only [List.mem_flatMap, List.mem_range]

/-- A board with an occupied in-bounds cell fails the empty check. -/
lemma boardEmptyCheck_false_of_occupied (b : Board) (x y : Int)
    (hin : inB x y b.size) (hocc : (b.cells y x).value ≠ 0) :
    boardEmptyCheck b = false := by
  cases hb : boardEmptyCheck b with
  | false => rfl
  | true => exact absurd (boardEmptyCheck_value b hb x y hin) hocc

/-- C4 (amended): on a non-empty board, a move onto an occupied board
cell is generated exactly when the card is in the hand, strictly beats
the cell's value, the cell is not a permanent 9, **and the cell does not
already belong to the moving player** — the last condition is the
correction: the code never lets a player overwrite their own card. -/
theorem claim4_amended_overwrite_legality (b : Board) (hand : List Int)
    (pid : String) (x y card : Int) (hin : inB x y b.size)
    (hocc : (b.cells y x).value ≠ 0) :
    (Move.mk x y card pid ∈ generateLegalMoves b hand pid) ↔
      (card ∈ hand ∧ (b.cells y x).value < card ∧ (b.cells y x).value ≠ 9 ∧
       (b.cells y x).ownerID ≠ pid) := by
  have hne := boardEmptyCheck_false_of_occupied b x y hin hocc
  rw [mem_generateLegalMoves_reg b hand pid _ hne]
  obtain ⟨hx0, hxlt, hy0, hylt⟩ := hin
  constructor
  · rintro ⟨yy, hyy, xx, hxx, hm⟩
    rw [mem_movesForCell] at hm
    obtain ⟨hskip, h9, hx, hy, hp, hc, hdisj⟩ := hm
    dsimp only at hx hy hp hc hdisj
    rw [← hx, ← hy] at h9 hdisj
    rcases hdisj with hv0 | ⟨hlt, how⟩
    · exact absurd hv0 hocc
    · exact ⟨hc, hlt, h9, how⟩
  · rintro ⟨hc, hlt, h9, how⟩
    refine ⟨y.toNat, by omega, x.toNat, by omega, ?_⟩
    rw [mem_movesForCell]
    rw [Int.toNat_of_nonneg hx0, Int.toNat_of_nonneg hy0]
    exact ⟨fun hcontra => hocc hcontra.2, h9, rfl, rfl, rfl, hc, Or.inr ⟨hlt, how⟩⟩

/-- Counterexample for C4 as stated: on `bOwn` the cell `(2, 2)` is
occupied with value 1 owned by `A`; card 2 strictly beats it and it is
not a 9, yet no overwrite move is generated for `A` — legality does
depend on the cell's owner. -/
theorem claim4_counterexample :
    boardEmptyCheck bOwn = false ∧
    (bOwn.cells 2 2).value = 1 ∧ (bOwn.cells 2 2).value < 2 ∧
    (bOwn.cells 2 2).value ≠ 9 ∧ (bOwn.cells 2 2).ownerID = "A" ∧
    Move.mk 2 2 2 "A" ∉ generateLegalMoves bOwn [2] "A" := by decide

/-- Witness for C4 (amended): the same cell is a legal overwrite for the
opponent `B`. -/
theorem claim4_witness :
    inB 2 2 bOwn.size ∧ (bOwn.cells 2 2).value ≠ 0 ∧
    (Move.mk 2 2 2 "B" ∈ generateLegalMoves bOwn [2] "B" ↔
      ((2 : Int) ∈ [(2 : Int)] ∧ (bOwn.cells 2 2).value < 2 ∧
       (bOwn.cells 2 2).value ≠ 9 ∧ (bOwn.cells 2 2).ownerID ≠ "B")) :=
  ⟨by decide, by decide,
    claim4_amended_overwrite_legality bOwn [2] "B" 2 2 2 (by decide) (by decide)⟩

/-- C9: on the empty 9×9 board the generated moves are exactly one move
per hand card at the center `(4, 4)`, and the manager `ApplyMove`
rejects as an illegal move any first move by the current player at
other coordinates. -/
theorem claim9_first_move_center (b : Board) (hand : List Int) (pid : String)
    (hb : boardEmptyCheck b = true) (hs : b.size = 9) :
    generateLegalMoves b hand pid = hand.map (fun card => Move.mk 4 4 card pid) ∧
    ∀ (r : Room) (cp : Player) (x y card : Int),
      r.board = b → currentPlayer r = some cp → cp.id = pid → card ∈ cp.hand →
      ¬(x = 4 ∧ y = 4) →
      (managerApplyMove r pid x y card).1 = some "illegal move" := by
  have hcen : ∀ h' : List Int, generateLegalMoves b h' pid
      = h'.map (fun card => Move.mk 4 4 card pid) := by
    intro h'
    unfold generateLegalMoves
    rw [if_pos hb, hs]
    norm_num
  refine ⟨hcen hand, ?_⟩
  intro r cp x y card hrb hcp hid hcard hxy
  have hfalse : containsMoveXYC (generateLegalMoves r.board cp.hand pid) x y card
      = false := by
    rw [hrb, hcen cp.hand]
    unfold containsMoveXYC
    apply List.any_eq_false.mpr
    intro mv hmv
    rw [List.mem_map] at hmv
    obtain ⟨c, hc, rfl⟩ := hmv
    dsimp only
    rcases not_and_or.mp hxy with hx | hy
    · have hd : decide ((4 : Int) = x) = false := by
        apply decide_eq_false; intro h; exact hx h.symm
      simp [hd]
    · have hd : decide ((4 : Int) = y) = false := by
        apply decide_eq_false; intro h; exact hy h.symm
      simp [hd]
  unfold managerApplyMove
  rw [hcp]
  dsimp only
  rw [if_neg (by simp [hid])]
  rw [if_neg (not_not_intro (List.elem_eq_true_of_mem hcard))]
  rw [if_pos (by rw [hfalse]; exact fun h => by simp at h)]

/-- Witness for C9: the fresh 9×9 room generates only center moves and
rejects `(0, 0)`. -/
theorem claim9_witness :
    boardEmptyCheck bEmpty9 = true ∧
    generateLegalMoves bEmpty9 [1, 2, 3] "A" =
      [1, 2, 3].map (fun card => Move.mk 4 4 card "A") ∧
    (managerApplyMove rFresh "A" 0 0 1).1 = some "illegal move" :=
  ⟨by decide,
    (claim9_first_move_center bEmpty9 [1, 2, 3] "A" (by decide) (by decide)).1,
    (claim9_first_move_center bEmpty9 [1, 2, 3] "A" (by decide) (by decide)).2
      rFresh pHandA123 0 0 1 rfl (by decide) rfl (by decide) (by decide)⟩

/-- C2 (amended, for the manager `ApplyMove` with the early return on a
winning move): an accepted move after which the resulting board shows a
win for the mover sets `WinnerID` to that player and leaves the turn
index unchanged. -/
theorem claim2_amended_win_no_turn_advance (r : Room) (pid : String)
    (x y card : Int)
    (hacc : (managerApplyMove r pid x y card).1 = none)
    (hwin : isWinningAfter (managerApplyMove r pid x y card).2.board x y pid card
      = true) :
    (managerApplyMove r pid x y card).2.winnerID = some pid ∧
    (managerApplyMove r pid x y card).2.turnIdx = r.turnIdx := by
  have hb := managerApplyMove_accepted_board r pid x y card hacc
  rw [hb] at hwin
  obtain ⟨cp, hcp, hid, hcont, hleg⟩ := managerApplyMove_accepted r pid x y card hacc
  unfold managerApplyMove
  rw [hcp]
  dsimp only
  rw [if_neg (not_not_intro hid), if_neg (not_not_intro hcont),
    if_neg (not_not_intro hleg), if_pos hwin]
  exact ⟨rfl, rfl⟩

/-- Counterexample for C2 as stated: the `room.go` variant of
`Manager.ApplyMove` (one of the two cited implementations) sets
`WinnerID` on the winning move but still advances the turn index from 0
to 1. -/
theorem claim2_counterexample :
    (roomApplyMove rDiag "A" 4 4 1).1 = none ∧
    isWinningAfter (roomApplyMove rDiag "A" 4 4 1).2.board 4 4 "A" 1 = true ∧
    (roomApplyMove rDiag "A" 4 4 1).2.winnerID = some "A" ∧
    rDiag.turnIdx = 0 ∧ (roomApplyMove rDiag "A" 4 4 1).2.turnIdx = 1 := by decide

/-- Witness for C2 (amended): the manager variant accepts the same
winning move, sets the winner and leaves the turn index at 0. -/
theorem claim2_witness :
    (managerApplyMove rDiag "A" 4 4 1).1 = none ∧
    isWinningAfter (managerApplyMove rDiag "A" 4 4 1).2.board 4 4 "A" 1 = true ∧
    (managerApplyMove rDiag "A" 4 4 1).2.winnerID = some "A" ∧
    (managerApplyMove rDiag "A" 4 4 1).2.turnIdx = rDiag.turnIdx :=
  ⟨by decide, by decide,
    (claim2_amended_win_no_turn_advance rDiag "A" 4 4 1 (by decide) (by decide)).1,
    (claim2_amended_win_no_turn_advance rDiag "A" 4 4 1 (by decide) (by decide)).2⟩

/-- What the legality check guarantees about the targeted cell on a
non-empty board: the coordinates are in bounds, the cell is not a
permanent 9, and an occupied cell is strictly beaten by the card and not
the mover's own. -/
lemma legal_props (b : Board) (hand : List Int) (pid : String) (x y card : Int)
    (hne : boardEmptyCheck b = false)
    (h : containsMoveXYC (generateLegalMoves b hand pid) x y card = true) :
    inB x y b.size ∧ (b.cells y x).value ≠ 9 ∧
    ((b.cells y x).value ≠ 0 →
      (b.cells y x).value < card ∧ (b.cells y x).ownerID ≠ pid) := by
  unfold containsMoveXYC at h
  rw [List.any_eq_true] at h
  obtain ⟨mv, hmv, hp⟩ := h
  simp only [Bool.and_eq_true, decide_eq_true_eq] at hp
  obtain ⟨⟨hpx, hpy⟩, hpc⟩ := hp
  rw [mem_generateLegalMoves_reg b hand pid mv hne] at hmv
  obtain ⟨yy, hyy, xx, hxx, hm⟩ := hmv
  rw [mem_movesForCell] at hm
  obtain ⟨hskip, h9, hx, hy, hpid, hc, hdisj⟩ := hm
  have hxe : (xx : Int) = x := by rw [← hx, hpx]
  have hye : (yy : Int) = y := by rw [← hy, hpy]
  rw [hxe, hye] at h9 hdisj
  refine ⟨⟨by omega, by omega, by omega, by omega⟩, h9, ?_⟩
  intro hocc
  rcases hdisj with hv0 | ⟨hlt, how⟩
  · exact absurd hv0 hocc
  · rw [hpc] at hlt
    exact ⟨hlt, how⟩

/-- One step of the manager `ApplyMove` never changes the value or the
owner of a board cell holding a 9 (accepted moves cannot target it,
rejected moves change nothing), and preserves the board size. -/
lemma step_preserves9 (r : Room) (pid : String) (x y card : Int) (X Y : Int)
    (hin : inB X Y r.board.size) (h9 : (r.board.cells Y X).value = 9) :
    ((managerApplyMove r pid x y card).2.board.cells Y X).value = 9 ∧
    ((managerApplyMove r pid x y card).2.board.cells Y X).ownerID
      = (r.board.cells Y X).ownerID ∧
    (managerApplyMove r pid x y card).2.board.size = r.board.size := by
  rcases managerApplyMove_cases r pid x y card with hacc | hrej
  · have hb := managerApplyMove_accepted_board r pid x y card hacc
    obtain ⟨cp, hcp, hid, hcont, hleg⟩ := managerApplyMove_accepted r pid x y card hacc
    rw [hb]
    have hne_t : ¬(Y = y ∧ X = x) := by
      rintro ⟨hYy, hXx⟩
      rw [hYy, hXx] at h9
      rw [hXx, hYy] at hin
      by_cases hbe : boardEmptyCheck r.board = true
      · have h0 := boardEmptyCheck_value r.board hbe x y hin
        omega
      · have hne : boardEmptyCheck r.board = false := by
          cases hb2 : boardEmptyCheck r.board
          · rfl
          · exact absurd hb2 hbe
        have hp := legal_props r.board cp.hand pid x y card hne hleg
        exact hp.2.1 h9
    have hu := updateVState_value_owner (applyMove r.board x y pid card) X Y
    have ha := applyMove_other r.board x y pid card X Y hne_t
    rw [hu.1, hu.2, ha.1, ha.2]
    exact ⟨h9, rfl, rfl⟩
  · rw [hrej]
    exact ⟨h9, rfl, rfl⟩

/-- A 9-cell keeps its value and owner through any sequence of requests
run by the manager. -/
lemma runTrace_preserves9 (X Y : Int) :
    ∀ (more : List Req) (s : Room), inB X Y s.board.size →
      (s.board.cells Y X).value = 9 →
      ((runTrace s more).board.cells Y X).value = 9 ∧
      ((runTrace s more).board.cells Y X).ownerID = (s.board.cells Y X).ownerID ∧
      (runTrace s more).board.size = s.board.size := by
  intro more
  induction more with
  | nil => intro s hin h9; exact ⟨h9, rfl, rfl⟩
  | cons qq rest ih =>
    intro s hin h9
    have hstep := step_preserves9 s qq.playerID qq.x qq.y qq.card X Y hin h9
    have hin1 : inB X Y (managerApplyMove s qq.playerID qq.x qq.y qq.card).2.board.size := by
      rw [hstep.2.2]; exact hin
    have hrec := ih (managerApplyMove s qq.playerID qq.x qq.y qq.card).2 hin1 hstep.1
    rw [runTrace]
    exact ⟨hrec.1, hrec.2.1.trans hstep.2.1, hrec.2.2.trans hstep.2.2⟩

/-- C8: along any request sequence run from any starting room, an
accepted move onto an occupied board cell carries a card strictly
greater than (and in particular never equal to 9 on) the value it
replaces, and a board cell holding a 9 is never changed — neither its
value nor its owner — by any later requests. -/
theorem claim8_overwrite_monotonicity (r0 : Room) (pre : List Req) (q : Req) :
    ((managerApplyMove (runTrace r0 pre) q.playerID q.x q.y q.card).1 = none →
      inB q.x q.y (runTrace r0 pre).board.size →
      ((runTrace r0 pre).board.cells q.y q.x).value ≠ 0 →
      ((runTrace r0 pre).board.cells q.y q.x).value < q.card ∧
      ((runTrace r0 pre).board.cells q.y q.x).value ≠ 9) ∧
    ∀ (X Y : Int) (more : List Req),
      inB X Y (runTrace r0 pre).board.size →
      ((runTrace r0 pre).board.cells Y X).value = 9 →
      ((runTrace (runTrace r0 pre) more).board.cells Y X).value = 9 ∧
      ((runTrace (runTrace r0 pre) more).board.cells Y X).ownerID
        = ((runTrace r0 pre).board.cells Y X).ownerID := by
  constructor
  · intro hacc hin hocc
    obtain ⟨cp, hcp, hid, hcont, hleg⟩ :=
      managerApplyMove_accepted (runTrace r0 pre) q.playerID q.x q.y q.card hacc
    have hne := boardEmptyCheck_false_of_occupied (runTrace r0 pre).board
      q.x q.y hin hocc
    have hp := legal_props (runTrace r0 pre).board cp.hand q.playerID
      q.x q.y q.card hne hleg
    exact ⟨(hp.2.2 hocc).1, hp.2.1⟩
  · intro X Y more hin h9
    have h := runTrace_preserves9 X Y more (runTrace r0 pre) hin h9
    exact ⟨h.1, h.2.1⟩

/-- Witness for C8: in `rNine`, `A`'s accepted overwrite of `B`'s
value-2 cell with a 3 is a strict increase, and `A`'s 9 at `(1, 1)`
survives the move untouched. -/
theorem claim8_witness :
    (managerApplyMove (runTrace rNine []) "A" 2 2 3).1 = none ∧
    ((runTrace rNine []).board.cells 2 2).value = 2 ∧
    (((runTrace rNine []).board.cells 2 2).value < 3 ∧
      ((runTrace rNine []).board.cells 2 2).value ≠ 9) ∧
    (((runTrace (runTrace rNine []) [Req.mk "A" 2 2 3]).board.cells 1 1).value = 9 ∧
      ((runTrace (runTrace rNine []) [Req.mk "A" 2 2 3]).board.cells 1 1).ownerID
        = ((runTrace rNine []).board.cells 1 1).ownerID) :=
  ⟨by decide, by decide,
    (claim8_overwrite_monotonicity rNine [] (Req.mk "A" 2 2 3)).1
      (by decide) (by decide) (by decide),
    (claim8_overwrite_monotonicity rNine [] (Req.mk "A" 2 2 3)).2
      1 1 [Req.mk "A" 2 2 3] (by decide) (by decide)⟩

/-- The winner-selection fold does not move once no remaining score
beats the accumulator. -/
lemma selStep_foldl_const (b : Board) (l : List String) (acc : String × Int)
    (h : ∀ q ∈ l, ¬ playerScore b q > acc.2) :
    l.foldl (selStep b) acc = acc := by
  induction l with
  | nil => rfl
  | cons a t ih =>
    rw [List.foldl_cons]
    have ha := h a (List.mem_cons_self a t)
    rw [selStep, if_neg ha]
    exact ih (fun q hq => h q (List.mem_cons_of_mem a hq))

/-- With a unique strict maximizer `p` whose score beats the
accumulator, the selection fold returns `p` regardless of the iteration
order. -/
lemma selectWinner_unique_max (b : Board) (p : String) :
    ∀ (l : List String) (acc : String × Int), p ∈ l →
      (∀ q ∈ l, q ≠ p → playerScore b q < playerScore b p) →
      acc.2 < playerScore b p →
      l.foldl (selStep b) acc = (p, playerScore b p) := by
  intro l
  induction l with
  | nil => intro acc hp _ _; exact absurd hp (List.not_mem_nil p)
  | cons a t ih =>
    intro acc hp hmax hacc
    rw [List.foldl_cons]
    by_cases hap : a = p
    · subst hap
      rw [selStep, if_pos hacc]
      apply selStep_foldl_const
      intro q hq
      by_cases hqp : q = a
      · subst hqp
        dsimp only
        omega
      · have := hmax q (List.mem_cons_of_mem _ hq) hqp
        dsimp only
        omega
    · have hp' : p ∈ t := by
        rcases List.mem_cons.mp hp with h1 | h1
        · exact absurd h1.symm hap
        · exact h1
      have hmax' : ∀ q ∈ t, q ≠ p → playerScore b q < playerScore b p :=
        fun q hq => hmax q (List.mem_cons_of_mem a hq)
      rw [selStep]
      split_ifs with hgt
      · refine ih (a, playerScore b a) hp' hmax' ?_
        dsimp only
        exact hmax a (List.mem_cons_self a t) hap
      · exact ih acc hp' hmax' hacc

/-- C1 (amended): when no winner is set and no player has a legal move,
`CheckEndgame` crowns the player with the strictly highest
adjacent-card-value score (`determineWinnerByAdjacentValues`): the sum,
over the player's owned cells, of the values of the in-bounds
neighboring cells.  The `(TieBreakerLineSum, TotalOwnedSum)` ranking of
`Manager.Rank` is *not* what `CheckEndgame` uses.  `ids` is the Go map
iteration order over the owners — the result is order-independent
because the maximizer is unique and its score beats the initial `-1`. -/
theorem claim1_amended_endgame_winner (r : Room) (ids : List String) (p : String)
    (hw : r.winnerID = none)
    (hnm : r.players.all
      (fun pl => (generateLegalMoves r.board pl.hand pl.id).isEmpty) = true)
    (hp : p ∈ ids) (hp0 : p ≠ "")
    (hscore : -1 < playerScore r.board p)
    (hmax : ∀ q ∈ ids, q ≠ p → playerScore r.board q < playerScore r.board p) :
    (checkEndgame r ids).winnerID = some p := by
  unfold checkEndgame
  rw [if_neg (not_not_intro hw)]
  rw [if_pos hnm]
  have hsel : selectWinner r.board ids = (p, playerScore r.board p) := by
    unfold selectWinner
    exact selectWinner_unique_max r.board p ids ("", -1) hp hmax hscore
  have h1 : (selectWinner r.board ids).1 = p := by rw [hsel]
  rw [h1, if_pos hp0]

/-- Counterexample for C1 as stated: in `rEnd` nobody can move and no
winner is set; player `A` is strictly maximal under the descending
`(TieBreakerLineSum, TotalOwnedSum)` order (9 > 2 on the first
component), yet `CheckEndgame` crowns `B` — under either possible map
iteration order — because it ranks by adjacent card values instead. -/
theorem claim1_counterexample :
    rEnd.winnerID = none ∧
    rEnd.players.all
      (fun pl => (generateLegalMoves rEnd.board pl.hand pl.id).isEmpty) = true ∧
    tieBreakerLineSum rEnd.board "A" = 9 ∧ tieBreakerLineSum rEnd.board "B" = 2 ∧
    totalOwnedSum rEnd.board "A" = 9 ∧ totalOwnedSum rEnd.board "B" = 2 ∧
    (checkEndgame rEnd ["A", "B"]).winnerID = some "B" ∧
    (checkEndgame rEnd ["B", "A"]).winnerID = some "B" := by decide

/-- Witness for C1 (amended): `B`'s adjacent-value score 2 uniquely
dominates `A`'s 0, and `CheckEndgame` indeed sets `B`. -/
theorem claim1_witness :
    rEnd.winnerID = none ∧ playerScore rEnd.board "B" = 2 ∧
    playerScore rEnd.board "A" = 0 ∧
    (checkEndgame rEnd ["A", "B"]).winnerID = some "B" :=
  ⟨rfl, by decide, by decide,
    claim1_amended_endgame_winner rEnd ["A", "B"] "B" rfl (by decide)
      (by decide) (by decide) (by decide) (by decide)⟩

end JChess
